import Mathlib

/-!
Shallow embedding of `src/hammy/__main__.py` (the hammy image upload tool)
and proofs about the claims of its specification.

Conventions used throughout:
* byte buffers (`io.BytesIO` contents, file contents) are `List Nat`;
* Python `int` is `Int`, Python `str` is `String` (code points as `Char`);
* interactive `input()` calls are driven by an explicit oracle list, where
  `none` models an entry that fails `int()` parsing (`ValueError`);
* unbounded `while` loops take a fuel argument, `none` meaning the loop has
  not exited within that many iterations (the source has no failure exit);
* the actual pixel/encoder work of PIL (`Image.resize`, JPEG/GIF encoding,
  `imagequant`) is kept abstract: images carry their dimensions and an
  opaque `data` token, re-encoding of buffers is an abstract `step`
  function where only byte sizes matter.
-/

namespace Hammy

/-- An in-memory byte buffer; only the byte values and the length matter here. -/
abbrev Buffer := List Nat

/-- `get_byte_size` (line 305): length of the buffer contents. -/
def get_byte_size (buffer : Buffer) : Nat := buffer.length

/-- `make_it_unique` (line 298): copy the input bytes into a fresh buffer and
append the result of `random.randbytes(16)`, here passed explicitly as `rand`. -/
def make_it_unique (inp rand : Buffer) : Buffer := inp ++ rand

/-- Python's `round` on the exact rational `n / d` (for `d > 0`): round half to
even. `get_new_dimensions` computes `round(new_width * height / width)` with
float division, which agrees with the exact rational value for all realistic
image dimensions (the quotient is a float rounding of the rational, and
multiples of `1/d` only fall within a float ulp of a half-integer when the
numerator exceeds 2^52). -/
def pyRound (n d : Int) : Int :=
  let q := n.fdiv d
  let r := n.fmod d
  if 2 * r < d then q
  else if d < 2 * r then q + 1
  else if q.fmod 2 = 0 then q else q + 1

/-- `check_width` (line 208): prompt for a new width. `inp = none` models an
entry that is not an integer, so `int()` raises `ValueError` before the
assignment and the previous `new_width` is returned; `inp = some v` models a
parsed integer entry: it is assigned to `new_width` first, and when it is out
of range the raised `ValueError` is caught and merely logged, so the entered
value is returned even then. -/
def check_width (new_width width : Int) (inp : Option Int) : Int :=
  match inp with
  | none => new_width
  | some v => v

/-- The `while new_width < 1 or new_width >= width` loop of
`get_new_dimensions` (line 234): repeat `check_width` until the width is valid.
`oracle` is the stream of interactive entries; `fuel` bounds the number of
iterations since the source loop can run forever (e.g. at `width = 1` no entry
is ever accepted). -/
def gnd_loop (width : Int) : Nat → List (Option Int) → Int → Option Int
  | 0, _, new_width =>
      if 1 ≤ new_width ∧ new_width < width then some new_width else none
  | fuel + 1, oracle, new_width =>
      if 1 ≤ new_width ∧ new_width < width then some new_width
      else
        match oracle with
        | [] => none
        | inp :: rest => gnd_loop width fuel rest (check_width new_width width inp)

/-- `get_new_dimensions` (line 228): start from the requested `resize` width
(or `0` when unset), loop until the width is valid, then derive the height as
`round(new_width * height / width)`. -/
def get_new_dimensions (fuel : Nat) (oracle : List (Option Int)) (width height : Int)
    (resize : Option Int) : Option (Int × Int) :=
  let new_width : Int := match resize with | some r => r | none => 0
  (gnd_loop width fuel oracle new_width).map (fun w => (w, pyRound (w * height) width))

/-- A decoded static image: its dimensions, and the pixel content kept abstract. -/
structure PILImage where
  width : Int
  height : Int
  data : Nat
deriving DecidableEq

/-- `resize_pics` (line 241) at the level of decoded dimensions: `Image.resize`
returns an image of exactly the dimensions chosen by `get_new_dimensions`; the
JPEG re-encode is abstracted away (the content token is kept). -/
def resize_pics (fuel : Nat) (oracle : List (Option Int)) (img : PILImage)
    (resize : Option Int) : Option PILImage :=
  match get_new_dimensions fuel oracle img.width img.height resize with
  | none => none
  | some (w, h) => some ⟨w, h, img.data⟩

/-- One frame of an animated image: abstract content and the optional
`duration` entry of that frame's info dictionary. -/
structure Frame where
  content : Nat
  duration : Option Nat
deriving DecidableEq

/-- A decoded animated image: frames in order, the optional `loop` info entry,
and the dimensions. -/
structure AnimImage where
  frames : List Frame
  loopInfo : Option Nat
  width : Int
  height : Int
deriving DecidableEq

/-- One frame as written by `frames[0].save(...)`: content, the duration it is
saved with, and its disposal mode. -/
structure OutFrame where
  content : Nat
  duration : Nat
  disposal : Nat
deriving DecidableEq

/-- The saved animation: frames in order plus the loop metadata. -/
structure AnimOutput where
  frames : List OutFrame
  loopMeta : Nat
deriving DecidableEq

/-- `img.info.get("duration", 100)` (line 259): the image is freshly opened, so
`info` is frame 0's info; a single scalar duration is read, before the frame
loop runs. -/
def anim_info_duration (img : AnimImage) : Nat :=
  match img.frames with
  | [] => 100
  | f :: _ => f.duration.getD 100

/-- `img.info.get("loop", 0)` (line 260). -/
def anim_info_loop (img : AnimImage) : Nat := img.loopInfo.getD 0

/-- `resize_animations` (line 253): pick new dimensions once, then resize and
quantize every frame in order (`resizeFrame` abstracts
`resize` + `imagequant.quantize_pil_image` on the pixel content), and save all
frames with the one scalar `duration`, the `loop` value and `disposal=2`. -/
def resize_animations (fuel : Nat) (oracle : List (Option Int)) (img : AnimImage)
    (resize : Option Int) (resizeFrame : Nat → Int → Int → Nat) : Option AnimOutput :=
  match get_new_dimensions fuel oracle img.width img.height resize with
  | none => none
  | some (w, h) =>
      some ⟨img.frames.map (fun f => ⟨resizeFrame f.content w h, anim_info_duration img, 2⟩),
            anim_info_loop img⟩

/-- `check_img_size` (line 309): while the buffer holds more than 7,600,000
bytes, warn and replace it by a re-encoding at a smaller width (`step`
abstracts the `resize_animations`/`resize_pics` call on the buffer). `fuel`
bounds the iterations; `none` means the loop has not exited, the source having
no failure exit at all. -/
def check_img_size (step : Buffer → Buffer) : Nat → Buffer → Option Buffer
  | 0, buffer => if get_byte_size buffer > 7600000 then none else some buffer
  | fuel + 1, buffer =>
      if get_byte_size buffer > 7600000 then check_img_size step fuel (step buffer)
      else some buffer

/-- The buffer pipeline of `upload_image` (lines 339-355): the processed buffer
is uniquified first, the result is size-checked, and what `check_img_size`
returns is exactly the payload of the multipart POST. -/
def upload_pipeline (processed rand : Buffer) (step : Buffer → Buffer) (fuel : Nat) :
    Option Buffer :=
  check_img_size step fuel (make_it_unique processed rand)

/-- The fields of `urllib3.util.retry.Retry` that `create_retry` sets. -/
structure RetryConfig where
  total : Nat
  status_forcelist : List Nat
  allowed_methods : List String
deriving DecidableEq

/-- `create_retry` (line 167): `Retry(total=2, status_forcelist=[429, 500, 502,
503, 504], allowed_methods=['HEAD', 'GET', 'OPTIONS'])`. -/
def create_retry : RetryConfig :=
  { total := 2
    status_forcelist := [429, 500, 502, 503, 504]
    allowed_methods := ["HEAD", "GET", "OPTIONS"] }

/-- urllib3 `Retry.is_retry` for a status-forcelist retry: the request method
must be among `allowed_methods` and the response status in
`status_forcelist`. -/
def retry_on_status (cfg : RetryConfig) (method : String) (status : Nat) : Bool :=
  cfg.allowed_methods.contains method && cfg.status_forcelist.contains status

/-- One request through the retry-mounted session, against a script of
responses: a retryable response consumes one retry and the request is re-sent;
exhausting the retry budget raises `MaxRetryError` (`none`); otherwise the
first non-retryable response is returned as-is. -/
def send_with_retry (cfg : RetryConfig) (method : String) : Nat → List Nat → Option Nat
  | _, [] => none
  | 0, status :: _ =>
      if retry_on_status cfg method status then none else some status
  | retries + 1, status :: rest =>
      if retry_on_status cfg method status then send_with_retry cfg method retries rest
      else some status

/-- requests `Response.ok`: true when the status code is below 400. -/
def response_ok (status : Nat) : Bool := status < 400

/-- The Python exception classes relevant to one batch item of `main`. -/
inductive PyError where
  | attributeError
  | httpError
  | fileNotFoundError
  | unidentifiedImageError
  | keyError
  | jsonDecodeError
deriving DecidableEq

/-- The `except (AttributeError, requests.exceptions.HTTPError)` clause of the
batch loop (lines 463-466): exactly these two classes are caught. -/
def main_loop_catches : PyError → Bool
  | .attributeError => true
  | .httpError => true
  | _ => false

/-- The batch loop of `main` (lines 458-480): per item, run the upload and
format the link (`process` abstracts `upload_image` followed by
`format_links`); a caught error is logged and the item skipped (`continue`),
an uncaught one propagates and aborts the whole batch (`none`); on success the
link is emitted, in loop order. -/
def main_loop (process : String → Except PyError String) : List String → Option (List String)
  | [] => some []
  | pic :: rest =>
      match process pic with
      | .ok link => (main_loop process rest).map (fun links => link :: links)
      | .error e => if main_loop_catches e then main_loop process rest else none

/-- `EXTENSIONS` (line 26). -/
def EXTENSIONS : List String := [".bmp", ".gif", ".jpg", ".jpeg", ".png", ".webp"]

/-- Python `str.lower()`, on the ASCII extensions this program compares. -/
def py_lower (s : String) : String := ⟨s.data.map Char.toLower⟩

/-- `os.path.splitext(p)[1]` (posixpath): the extension starts at the last dot
that lies inside the final path component and has at least one non-dot
character of that component before it. -/
def splitext_ext (p : String) : String :=
  let rev := p.data.reverse
  let t := rev.takeWhile (fun c => c != '.')
  if ('/' : Char) ∈ t then ""
  else
    match rev.drop t.length with
    | [] => ""
    | _ :: before =>
        let nameBefore := before.takeWhile (fun c => c != '/')
        if nameBefore.any (fun c => c != '.') then ⟨'.' :: t.reverse⟩ else ""

/-- The final component of a POSIX path (everything after the last slash). -/
def nameOfChars (l : List Char) : List Char :=
  (l.reverse.takeWhile (fun c => c != '/')).reverse

/-- Everything up to and including the last slash of a POSIX path. -/
def dirOfChars (l : List Char) : List Char :=
  (l.reverse.dropWhile (fun c => c != '/')).reverse

/-- pathlib's `suffix` of a file name: `name[i:]` for `i` the index of the last
dot when `0 < i < len(name) - 1`, else empty. -/
def suffixOfChars (name : List Char) : List Char :=
  let t := name.reverse.takeWhile (fun c => c != '.')
  if 0 < t.length ∧ t.length + 1 < name.length then '.' :: t.reverse else []

/-- pathlib's `stem`: the name with its suffix removed. -/
def stemOfChars (name : List Char) : List Char :=
  name.take (name.length - (suffixOfChars name).length)

/-- pathlib `with_suffix` on a path, modelled for the normalized absolute paths
this program handles (no duplicate or trailing slashes, nonempty final
component), on which `str(PurePosixPath(p))` is `p` itself: keep the directory
part, replace the name's suffix. -/
def with_suffix_chars (path suf : List Char) : List Char :=
  dirOfChars path ++ stemOfChars (nameOfChars path) ++ suf

/-- `Path(...).suffix` / `PurePosixPath(...).suffix` of a path given as a string. -/
def path_suffix (p : String) : String := ⟨suffixOfChars (nameOfChars p.data)⟩

/-- String-level wrapper of `with_suffix_chars`. -/
def with_suffix (path suf : String) : String := ⟨with_suffix_chars path.data suf.data⟩

/-- Python's string comparison on code-point lists: lexicographic by code
point (what `sorted` and `list.sort` use). -/
def py_str_le : List Char → List Char → Bool
  | [], _ => true
  | _ :: _, [] => false
  | x :: xs, y :: ys =>
      if x.toNat < y.toNat then true
      else if y.toNat < x.toNat then false
      else py_str_le xs ys

/-- Python's `<=` on strings, as a relation for sorting. -/
def py_le (a b : String) : Prop := py_str_le a.data b.data = true

instance : DecidableRel py_le :=
  fun a b => decidable_of_iff (py_str_le a.data b.data = true) Iff.rfl

/-- `find_images` (line 179): walk a directory (the walked file paths are given
as `walked`), keep those whose `Path(...).suffix.lower()` is in `EXTENSIONS`,
and return them sorted. -/
def find_images (walked : List String) : List String :=
  List.insertionSort py_le
    (walked.filter (fun f => EXTENSIONS.contains (py_lower (path_suffix f))))

/-- `organize_pics` (line 192): directories contribute their walked images,
any other argument is kept when `os.path.splitext(arg)[1]` is in `EXTENSIONS`
(note: without lowercasing); the collected list is then sorted in place.
Items are modelled as strings compared lexicographically, which matches
Python's comparison for URL strings and single-component paths. -/
def organize_pics (isDir : String → Bool) (dirWalk : String → List String)
    (filenames : List String) : List String :=
  let pics := filenames.flatMap (fun a =>
    if isDir a then find_images (dirWalk a)
    else if EXTENSIONS.contains (splitext_ext a) then [a] else [])
  List.insertionSort py_le pics

/-- The six components returned by `urllib.parse.urlparse`. -/
structure UrlParts where
  scheme : String
  netloc : String
  path : String
  params : String
  query : String
  fragment : String
deriving DecidableEq

/-- Split a list at the first occurrence of a character. -/
def breakAtFirst (c : Char) : List Char → Option (List Char × List Char)
  | [] => none
  | x :: xs =>
      if x = c then some ([], xs)
      else (breakAtFirst c xs).map (fun p => (x :: p.1, p.2))

/-- A character allowed inside a URL scheme after the leading letter. -/
def scheme_char (c : Char) : Bool :=
  c.isAlpha || c.isDigit || c == '+' || c == '-' || c == '.'

/-- True for characters that do not end the netloc component. -/
def not_netloc_delim (c : Char) : Bool := !(c == '/' || c == '?' || c == '#')

/-- `urllib.parse` `_splitparams`: split the last path segment at its first
semicolon. -/
def splitparams (l : List Char) : List Char × List Char :=
  let seg := (l.reverse.takeWhile (fun c => c != '/')).reverse
  match breakAtFirst ';' seg with
  | none => (l, [])
  | some (a, b) => (l.take (l.length - seg.length) ++ a, b)

/-- `urllib.parse.urlparse`, modelled for the absolute URLs this program
handles: a valid scheme before the colon (lowercased), a netloc after `//`
running to the next `/`, `?` or `#`, then the fragment after the first `#`,
the query after the first `?`, and params split off the last path segment. -/
def urlparse (url : String) : UrlParts :=
  let l := url.data
  let schemeRest : List Char × List Char :=
    match breakAtFirst ':' l with
    | some (before, after) =>
        match before with
        | [] => ([], l)
        | c :: cs =>
            if c.isAlpha && cs.all scheme_char then ((c :: cs).map Char.toLower, after)
            else ([], l)
    | none => ([], l)
  let netlocRest : List Char × List Char :=
    match schemeRest.2 with
    | '/' :: '/' :: r => (r.takeWhile not_netloc_delim, r.dropWhile not_netloc_delim)
    | _ => ([], schemeRest.2)
  let fragSplit : List Char × List Char :=
    match breakAtFirst '#' netlocRest.2 with
    | some (a, b) => (a, b)
    | none => (netlocRest.2, [])
  let querySplit : List Char × List Char :=
    match breakAtFirst '?' fragSplit.1 with
    | some (a, b) => (a, b)
    | none => (fragSplit.1, [])
  let pathParams := splitparams querySplit.1
  ⟨⟨schemeRest.1⟩, ⟨netlocRest.1⟩, ⟨pathParams.1⟩, ⟨pathParams.2⟩,
    ⟨querySplit.2⟩, ⟨fragSplit.2⟩⟩

/-- `urllib.parse.urlunparse`: reassemble the components. -/
def urlunparse (p : UrlParts) : String :=
  let u0 := p.path.data ++ (if p.params.data = [] then [] else ';' :: p.params.data)
  let u1 :=
    if p.netloc.data ≠ [] ∨ u0.take 2 = ['/', '/'] then
      '/' :: '/' :: (p.netloc.data ++
        (if u0 ≠ [] ∧ u0.head? ≠ some '/' then '/' :: u0 else u0))
    else u0
  let u2 := if p.scheme.data = [] then u1 else p.scheme.data ++ ':' :: u1
  let u3 := if p.query.data = [] then u2 else u2 ++ '?' :: p.query.data
  let u4 := if p.fragment.data = [] then u3 else u3 ++ '#' :: p.fragment.data
  ⟨u4⟩

/-- The component-level middle of `change_url_suffix` (line 415): replace only
the path, inserting `new_suffix` before the path's current suffix. -/
def change_suffix_parts (parts : UrlParts) (new_suffix : String) : UrlParts :=
  { parts with path := with_suffix parts.path (new_suffix ++ path_suffix parts.path) }

/-- `change_url_suffix` (line 415): parse the URL, rewrite the path via
`with_suffix`, reassemble. -/
def change_url_suffix (url new_suffix : String) : String :=
  urlunparse (change_suffix_parts (urlparse url) new_suffix)

/-- `format_links` (line 387): the seven link styles, empty string for
anything else. -/
def format_links (link_format : String) (link : String) (image_id : String) : String :=
  if link_format = "b" then "[img]" ++ link ++ "[/img]"
  else if link_format = "d" then link
  else if link_format = "h" then
    "[url=https://hamster.is/image/" ++ image_id ++ "][img]"
      ++ change_url_suffix link ".th" ++ "[/img][/url]"
  else if link_format = "i" then "[imgnm]" ++ link ++ "[/imgnm]"
  else if link_format = "m" then change_url_suffix link ".md"
  else if link_format = "t" then change_url_suffix link ".th"
  else if link_format = "u" then
    "[url=https://hamster.is/image/" ++ image_id ++ "][img]"
      ++ change_url_suffix link ".md" ++ "[/img][/url]"
  else ""

/-- Concrete per-item processor used to exercise the batch loop: one item fails
with a caught error class, the others succeed. -/
def proc4 : String → Except PyError String :=
  fun p => if p = "a.jpg" then .error .attributeError else .ok p

/-- Concrete animated image used to exercise `resize_animations`: two frames
with distinct per-frame durations. -/
def img8 : AnimImage := ⟨[⟨1, some 40⟩, ⟨2, some 80⟩], some 3, 100, 60⟩

instance : IsTotal String py_le := by
  constructor
  intro a b
  show py_str_le a.data b.data = true ∨ py_str_le b.data a.data = true
  generalize a.data = la
  generalize b.data = lb
  induction la generalizing lb with
  | nil => exact Or.inl rfl
  | cons x xs ih =>
      cases lb with
      | nil => exact Or.inr rfl
      | cons y ys =>
          by_cases h1 : x.toNat < y.toNat
          · exact Or.inl (by simp [py_str_le, h1])
          · by_cases h2 : y.toNat < x.toNat
            · exact Or.inr (by simp [py_str_le, h2])
            · rcases ih ys with h | h
              · exact Or.inl (by simp [py_str_le, h1, h2, h])
              · exact Or.inr (by simp [py_str_le, h1, h2, h])

instance : IsTrans String py_le := by
  constructor
  intro a b c hab hbc
  have hab2 : py_str_le a.data b.data = true := hab
  have hbc2 : py_str_le b.data c.data = true := hbc
  show py_str_le a.data c.data = true
  clear hab hbc
  generalize a.data = la at hab2 ⊢
  generalize b.data = lb at hab2 hbc2
  generalize c.data = lc at hbc2 ⊢
  induction la generalizing lb lc with
  | nil => rfl
  | cons x xs ih =>
      cases lb with
      | nil => exact absurd hab2 (by simp [py_str_le])
      | cons y ys =>
          cases lc with
          | nil => exact absurd hbc2 (by simp [py_str_le])
          | cons z zs =>
              simp only [py_str_le] at hab2 hbc2 ⊢
              by_cases h1 : x.toNat < y.toNat
              · by_cases h2 : y.toNat < z.toNat
                · have h5 : x.toNat < z.toNat := by omega
                  simp [h5]
                · by_cases h3 : z.toNat < y.toNat
                  · rw [if_neg h2, if_pos h3] at hbc2
                    exact absurd hbc2 (by simp)
                  · have h5 : x.toNat < z.toNat := by omega
                    simp [h5]
              · by_cases h4 : y.toNat < x.toNat
                · rw [if_neg h1, if_pos h4] at hab2
                  exact absurd hab2 (by simp)
                · rw [if_neg h1, if_neg h4] at hab2
                  by_cases h2 : y.toNat < z.toNat
                  · have h5 : x.toNat < z.toNat := by omega
                    simp [h5]
                  · by_cases h3 : z.toNat < y.toNat
                    · rw [if_neg h2, if_pos h3] at hbc2
                      exact absurd hbc2 (by simp)
                    · rw [if_neg h2, if_neg h3] at hbc2
                      have h5 : ¬ x.toNat < z.toNat := by omega
                      have h6 : ¬ z.toNat < x.toNat := by omega
                      rw [if_neg h5, if_neg h6]
                      exact ih _ hab2 _ hbc2

end Hammy

namespace Hammy

/-! ## Helper lemmas -/

theorem check_img_size_le (step : Buffer → Buffer) :
    ∀ (fuel : Nat) (buffer out : Buffer),
      check_img_size step fuel buffer = some out → get_byte_size out ≤ 7600000 := by
  intro fuel
  induction fuel with
  | zero =>
      intro buffer out h
      by_cases hb : get_byte_size buffer > 7600000
      · simp [check_img_size, hb] at h
      · simp [check_img_size, hb] at h
        subst h
        omega
  | succ n ih =>
      intro buffer out h
      by_cases hb : get_byte_size buffer > 7600000
      · simp only [check_img_size, if_pos hb] at h
        exact ih _ _ h
      · simp [check_img_size, hb] at h
        subst h
        omega

theorem gnd_loop_valid (width : Int) :
    ∀ (fuel : Nat) (oracle : List (Option Int)) (nw w : Int),
      gnd_loop width fuel oracle nw = some w → 1 ≤ w ∧ w < width := by
  intro fuel
  induction fuel with
  | zero =>
      intro oracle nw w h
      by_cases hc : 1 ≤ nw ∧ nw < width
      · simp [gnd_loop, hc] at h
        omega
      · simp [gnd_loop, hc] at h
  | succ n ih =>
      intro oracle nw w h
      by_cases hc : 1 ≤ nw ∧ nw < width
      · simp [gnd_loop, hc] at h
        omega
      · cases oracle with
        | nil => simp [gnd_loop, hc] at h
        | cons inp rest =>
            simp only [gnd_loop, if_neg hc] at h
            exact ih rest _ w h

theorem gnd_loop_one :
    ∀ (fuel : Nat) (oracle : List (Option Int)) (nw : Int),
      gnd_loop 1 fuel oracle nw = none := by
  intro fuel
  induction fuel with
  | zero =>
      intro oracle nw
      have hc : ¬ (1 ≤ nw ∧ nw < 1) := by omega
      simp [gnd_loop, hc]
  | succ n ih =>
      intro oracle nw
      have hc : ¬ (1 ≤ nw ∧ nw < 1) := by omega
      cases oracle with
      | nil => simp [gnd_loop, hc]
      | cons inp rest => simp [gnd_loop, hc, ih]

theorem gnd_loop_mem (width : Int) :
    ∀ (fuel : Nat) (oracle : List (Option Int)) (nw w : Int),
      gnd_loop width fuel oracle nw = some w → w = nw ∨ w ∈ oracle.filterMap id := by
  intro fuel
  induction fuel with
  | zero =>
      intro oracle nw w h
      by_cases hc : 1 ≤ nw ∧ nw < width
      · simp [gnd_loop, hc] at h
        exact Or.inl h.symm
      · simp [gnd_loop, hc] at h
  | succ n ih =>
      intro oracle nw w h
      by_cases hc : 1 ≤ nw ∧ nw < width
      · simp [gnd_loop, hc] at h
        exact Or.inl h.symm
      · cases oracle with
        | nil => simp [gnd_loop, hc] at h
        | cons inp rest =>
            simp only [gnd_loop, if_neg hc] at h
            rcases ih rest _ w h with heq | hmem
            · cases inp with
              | none =>
                  simp only [check_width] at heq
                  exact Or.inl heq
              | some v =>
                  simp only [check_width] at heq
                  rw [heq]
                  exact Or.inr (List.mem_filterMap.2 ⟨some v, by simp, rfl⟩)
            · rcases List.mem_filterMap.1 hmem with ⟨a, ha, haw⟩
              exact Or.inr (List.mem_filterMap.2 ⟨a, List.mem_cons_of_mem _ ha, haw⟩)

/-! ## Claim theorems -/

/-- Claim C1, amended: whenever `check_img_size` returns, the returned buffer
holds at most 7,600,000 bytes, and every width chosen inside an iteration's
resize is strictly smaller than the current image width (so successive
iterations use strictly decreasing widths); consequently every buffer the
pipeline hands to the upload POST is within the ceiling. The source, however,
never raises a ConvergenceError: when it cannot shrink further it keeps
prompting forever (see the counterexample). -/
theorem C1_size_fit :
    (∀ (step : Buffer → Buffer) (fuel : Nat) (buffer out : Buffer),
        check_img_size step fuel buffer = some out → get_byte_size out ≤ 7600000)
    ∧ (∀ (fuel : Nat) (oracle : List (Option Int)) (width height : Int)
        (resize : Option Int) (w h : Int),
        get_new_dimensions fuel oracle width height resize = some (w, h) →
          1 ≤ w ∧ w < width)
    ∧ (∀ (processed rand : Buffer) (step : Buffer → Buffer) (fuel : Nat) (posted : Buffer),
        upload_pipeline processed rand step fuel = some posted →
          get_byte_size posted ≤ 7600000) := by
  refine ⟨fun step fuel b out h => check_img_size_le step fuel b out h, ?_,
    fun p r step fuel posted h => check_img_size_le step fuel _ posted h⟩
  intro fuel oracle width height resize w h hres
  simp only [get_new_dimensions] at hres
  rcases Option.map_eq_some'.1 hres with ⟨w0, hw0, heq⟩
  injection heq with hw hh
  subst hw
  exact gnd_loop_valid width fuel oracle _ w0 hw0

/-- Claim C1 witness: a concrete application of both halves. -/
theorem C1_size_fit_witness :
    get_byte_size ([] : Buffer) ≤ 7600000 ∧ ((1 : Int) ≤ 5 ∧ (5 : Int) < 10) :=
  ⟨C1_size_fit.1 (fun b => b) 0 [] [] (by decide),
   C1_size_fit.2.1 0 [] 10 4 (some 5) 5 2 (by decide)⟩

/-- Claim C1 counterexample: the claim as stated is false on the code. When an
image of width 1 is still over the ceiling (e.g. a tiny image followed by
megabytes of trailing bytes, which `make_it_unique` itself produces),
`check_img_size` calls the resizer, whose width prompt loop can never accept a
value (`1 ≤ w < 1` is unsatisfiable): for every fuel bound and every entry
stream, `get_new_dimensions` yields no result — the call neither returns a
fitted buffer nor fails with a ConvergenceError, which does not exist anywhere
in the source. -/
theorem C1_counterexample :
    (fun (fuel : Nat) (oracle : List (Option Int)) =>
        get_new_dimensions fuel oracle 1 1 none)
      = fun _ _ => (none : Option (Int × Int)) := by
  funext fuel oracle
  simp [get_new_dimensions, gnd_loop_one]

/-- Claim C2: `make_it_unique` returns the input bytes followed by exactly 16
random bytes (length is `len(input) + 16`, the first `len(input)` bytes are
the input unchanged), and in `upload_image` the uniquified buffer is what the
size-ceiling check receives, so the 16 extra bytes count against the
ceiling. -/
theorem C2_uniquify (inp rand : Buffer) (h : rand.length = 16) :
    (make_it_unique inp rand).length = inp.length + 16
    ∧ (make_it_unique inp rand).take inp.length = inp
    ∧ ∀ (step : Buffer → Buffer) (fuel : Nat),
        upload_pipeline inp rand step fuel
          = check_img_size step fuel (make_it_unique inp rand) := by
  refine ⟨?_, ?_, fun _ _ => rfl⟩
  · simp [make_it_unique, h]
  · simp [make_it_unique]

/-- Claim C2 witness. -/
theorem C2_uniquify_witness :
    (make_it_unique [1, 2] (List.replicate 16 0)).length = [1, 2].length + 16
    ∧ (make_it_unique [1, 2] (List.replicate 16 0)).take [1, 2].length = [1, 2] :=
  ⟨(C2_uniquify [1, 2] (List.replicate 16 0) (by decide)).1,
   (C2_uniquify [1, 2] (List.replicate 16 0) (by decide)).2.1⟩

/-- Claim C3, amended: the session's retry strategy retries statuses 429, 500,
502, 503, 504 with a total attempt budget of 3 only for the allowed methods
HEAD, GET and OPTIONS (a GET receiving 503, 503, 200 does succeed); the upload
POST is not among the allowed methods, so it is never retried on those
statuses and the first response is returned as-is. -/
theorem C3_retry_policy :
    send_with_retry create_retry "GET" create_retry.total [503, 503, 200] = some 200
    ∧ response_ok 200 = true
    ∧ ∀ (retries status : Nat) (rest : List Nat),
        send_with_retry create_retry "POST" retries (status :: rest) = some status := by
  refine ⟨by decide, by decide, fun retries status rest => ?_⟩
  have h1 : create_retry.allowed_methods.contains "POST" = false := by decide
  have hpost : retry_on_status create_retry "POST" status = false := by
    simp only [retry_on_status, h1, Bool.false_and]
  cases retries with
  | zero => simp [send_with_retry, hpost]
  | succ r => simp [send_with_retry, hpost]

/-- Claim C3 counterexample: an upload POST that receives 503, 503, 200 does
not retry — the first 503 is surfaced, `response.ok` is false, and
`upload_image` goes down its error path instead of succeeding. -/
theorem C3_counterexample :
    send_with_retry create_retry "POST" create_retry.total [503, 503, 200] = some 503
    ∧ response_ok 503 = false := by decide

/-- Claim C4, amended: the batch loop catches exactly `AttributeError` and
`requests.exceptions.HTTPError`; when every per-item failure is one of those
classes, each failing item is skipped and the batch completes with the links
of the successful items, in order. Any other exception class propagates out of
the loop and aborts the batch (see the counterexample). -/
theorem C4_batch_error_policy (process : String → Except PyError String) (pics : List String)
    (h : ∀ p e, process p = .error e → main_loop_catches e = true) :
    main_loop process pics = some (pics.filterMap (fun p => (process p).toOption)) := by
  induction pics with
  | nil => rfl
  | cons p rest ih =>
      cases hp : process p with
      | ok link => simp [main_loop, List.filterMap_cons, hp, ih, Except.toOption]
      | error e =>
          have hc := h p e hp
          simp [main_loop, List.filterMap_cons, hp, hc, ih, Except.toOption]

/-- Claim C4 witness: a batch where one item fails with a caught class
completes, skipping just that item. -/
theorem C4_witness :
    main_loop proc4 ["a.jpg", "b.jpg"]
      = some (["a.jpg", "b.jpg"].filterMap (fun p => (proc4 p).toOption)) :=
  C4_batch_error_policy proc4 ["a.jpg", "b.jpg"] (by
    intro p e hp
    unfold proc4 at hp
    by_cases hc : p = "a.jpg"
    · rw [if_pos hc] at hp
      cases hp
      rfl
    · rw [if_neg hc] at hp
      exact absurd hp (by simp))

/-- Claim C4 counterexample: a decode failure (PIL's UnidentifiedImageError,
raised for a corrupt file that `organize_pics` accepted by extension) is not
among the two caught classes, so the batch aborts — the claim that any
per-item error is caught and the loop always continues is false. -/
theorem C4_counterexample :
    main_loop
      (fun p => if p = "bad.png" then Except.error PyError.unidentifiedImageError
        else Except.ok p) ["bad.png", "good.jpg"] = none := by decide

/-- Claim C5, amended: a requested width below 1 or at least the original
width is never used and never clamped — but no InvalidWidthError (nor any
exception) is raised: `get_new_dimensions` logs and re-prompts until an
in-range width is entered, and when the request was invalid the width finally
used is one of the interactively entered values. -/
theorem C5_width_rejection (fuel : Nat) (oracle : List (Option Int))
    (width height r w h : Int)
    (hres : get_new_dimensions fuel oracle width height (some r) = some (w, h)) :
    (1 ≤ w ∧ w < width) ∧ ((r < 1 ∨ width ≤ r) → w ∈ oracle.filterMap id) := by
  simp only [get_new_dimensions] at hres
  rcases Option.map_eq_some'.1 hres with ⟨w0, hw0, heq⟩
  injection heq with hw hh
  subst hw
  obtain ⟨h1, h2⟩ := gnd_loop_valid width fuel oracle r w0 hw0
  refine ⟨⟨h1, h2⟩, fun hr => ?_⟩
  rcases gnd_loop_mem width fuel oracle r w0 hw0 with heq2 | hmem
  · exfalso
    omega
  · exact hmem

/-- Claim C5 witness. -/
theorem C5_witness :
    ((1 : Int) ≤ 50 ∧ (50 : Int) < 100)
    ∧ (((200 : Int) < 1 ∨ (100 : Int) ≤ 200) →
        (50 : Int) ∈ ([some 50] : List (Option Int)).filterMap id) :=
  C5_width_rejection 1 [some 50] 100 60 200 50 30 (by decide)

/-- Claim C5 counterexample: a requested width of 200 on a 100-pixel-wide
image is not rejected by raising anything — the call returns normally with the
re-prompted width (here 50), so no InvalidWidthError is raised (none exists in
the source). -/
theorem C5_counterexample :
    get_new_dimensions 1 [some 50] 100 60 (some 200) = some (50, 30) := by decide

/-- Claim C7: for an accepted target width (at least 1 and below the original
width, in particular every accepted width above 1), the static re-encode
produces exactly width `w` and height `round(w * H / W)` (Python rounding,
half to even). -/
theorem C7_static_resize_dims (fuel : Nat) (oracle : List (Option Int)) (img : PILImage)
    (w : Int) (h1 : 1 ≤ w) (h2 : w < img.width) :
    resize_pics fuel oracle img (some w)
      = some ⟨w, pyRound (w * img.height) img.width, img.data⟩ := by
  have hcond : 1 ≤ w ∧ w < img.width := ⟨h1, h2⟩
  have hloop : gnd_loop img.width fuel oracle w = some w := by
    cases fuel <;> simp [gnd_loop, hcond]
  simp [resize_pics, get_new_dimensions, hloop]

/-- Claim C7 witness: resizing a 100 by 60 image to width 50 yields 50 by 30. -/
theorem C7_witness :
    resize_pics 0 [] ⟨100, 60, 7⟩ (some 50) = some ⟨50, pyRound (50 * 60) 100, 7⟩
    ∧ pyRound (50 * 60) 100 = 30 :=
  ⟨C7_static_resize_dims 0 [] ⟨100, 60, 7⟩ 50 (by decide) (by decide), by decide⟩

/-- Claim C8, amended: the animated re-encode preserves frame count and order
and the loop-count metadata, and sets disposal 2 (clear to background) on
every frame — but it does not preserve each frame's individual duration: the
single duration read from the first frame's info (default 100) is applied
uniformly to all frames. -/
theorem C8_animation_metadata (fuel : Nat) (oracle : List (Option Int)) (img : AnimImage)
    (resize : Option Int) (resizeFrame : Nat → Int → Int → Nat) (out : AnimOutput)
    (hout : resize_animations fuel oracle img resize resizeFrame = some out) :
    out.frames.length = img.frames.length
    ∧ (∀ fr ∈ out.frames, fr.duration = anim_info_duration img ∧ fr.disposal = 2)
    ∧ out.loopMeta = anim_info_loop img
    ∧ ∃ w h, out.frames
        = img.frames.map (fun f => ⟨resizeFrame f.content w h, anim_info_duration img, 2⟩) := by
  unfold resize_animations at hout
  cases hgnd : get_new_dimensions fuel oracle img.width img.height resize with
  | none =>
      rw [hgnd] at hout
      exact absurd hout (by simp)
  | some wh =>
      obtain ⟨w, h⟩ := wh
      rw [hgnd] at hout
      simp only [Option.some.injEq] at hout
      subst hout
      refine ⟨by simp, ?_, rfl, ⟨w, h, rfl⟩⟩
      intro fr hfr
      rcases List.mem_map.1 hfr with ⟨f, hf, rfl⟩
      exact ⟨rfl, rfl⟩

/-- Claim C8 witness: a two-frame animation keeps its frame count, order, loop
value and disposal 2. -/
theorem C8_witness :
    (⟨[⟨1, 40, 2⟩, ⟨2, 40, 2⟩], 3⟩ : AnimOutput).frames.length = img8.frames.length
    ∧ (∀ fr ∈ (⟨[⟨1, 40, 2⟩, ⟨2, 40, 2⟩], 3⟩ : AnimOutput).frames,
        fr.duration = anim_info_duration img8 ∧ fr.disposal = 2)
    ∧ (⟨[⟨1, 40, 2⟩, ⟨2, 40, 2⟩], 3⟩ : AnimOutput).loopMeta = anim_info_loop img8
    ∧ ∃ (w : Int) (h : Int), w = w ∧ h = h
        ∧ (⟨[⟨1, 40, 2⟩, ⟨2, 40, 2⟩], 3⟩ : AnimOutput).frames
          = img8.frames.map
              (fun f => (⟨f.content, anim_info_duration img8, 2⟩ : OutFrame)) := by
  have h := C8_animation_metadata 0 [] img8 (some 50) (fun c _ _ => c)
    ⟨[⟨1, 40, 2⟩, ⟨2, 40, 2⟩], 3⟩ (by decide)
  refine ⟨h.1, h.2.1, h.2.2.1, ?_⟩
  rcases h.2.2.2 with ⟨w, hgt, hfr⟩
  exact ⟨w, hgt, rfl, rfl, hfr⟩

/-- Claim C8 counterexample: an animation whose frames last 40 and 80 is saved
with both frames at duration 40 (the first frame's value) — the individual
durations are not preserved. -/
theorem C8_counterexample :
    (resize_animations 0 [] img8 (some 50) (fun c _ _ => c)).map
        (fun o => o.frames.map (fun fr => fr.duration)) = some [40, 40]
    ∧ img8.frames.map (fun f => f.duration) = [some 40, some 80] := by decide

end Hammy

namespace Hammy

/-! ## String and path helper lemmas -/

theorem str_data_append (s t : String) : (s ++ t).data = s.data ++ t.data := by
  cases s
  cases t
  rfl

theorem takeWhile_append_stop (p : Char → Bool) :
    ∀ (a : List Char) (x : Char) (b : List Char),
      (∀ c ∈ a, p c = true) → p x = false → (a ++ x :: b).takeWhile p = a := by
  intro a
  induction a with
  | nil =>
      intro x b _ hx
      simp [List.takeWhile_cons, hx]
  | cons y ys ih =>
      intro x b ha hx
      have hy : p y = true := ha y (by simp)
      simp [List.takeWhile_cons, hy,
        ih x b (fun c hc => ha c (List.mem_cons_of_mem _ hc)) hx]

theorem dropWhile_append_stop (p : Char → Bool) :
    ∀ (a : List Char) (x : Char) (b : List Char),
      (∀ c ∈ a, p c = true) → p x = false → (a ++ x :: b).dropWhile p = x :: b := by
  intro a
  induction a with
  | nil =>
      intro x b _ hx
      simp [List.dropWhile_cons, hx]
  | cons y ys ih =>
      intro x b ha hx
      have hy : p y = true := ha y (by simp)
      simp [List.dropWhile_cons, hy,
        ih x b (fun c hc => ha c (List.mem_cons_of_mem _ hc)) hx]

theorem ne_char_all (ch : Char) (m : List Char) (hm : ch ∉ m) :
    ∀ c ∈ m.reverse, (c != ch) = true := by
  intro c hc
  have hcm : c ∈ m := List.mem_reverse.1 hc
  have hne : c ≠ ch := fun hEq => hm (hEq ▸ hcm)
  simp [hne]

theorem nameOfChars_append (d m : List Char) (hm : ('/' : Char) ∉ m) :
    nameOfChars (d ++ '/' :: m) = m := by
  unfold nameOfChars
  have hrev : (d ++ '/' :: m).reverse = m.reverse ++ '/' :: d.reverse := by
    simp [List.append_assoc]
  rw [hrev,
    takeWhile_append_stop _ m.reverse '/' d.reverse (ne_char_all '/' m hm) (by simp),
    List.reverse_reverse]

theorem dirOfChars_append (d m : List Char) (hm : ('/' : Char) ∉ m) :
    dirOfChars (d ++ '/' :: m) = d ++ ['/'] := by
  unfold dirOfChars
  have hrev : (d ++ '/' :: m).reverse = m.reverse ++ '/' :: d.reverse := by
    simp [List.append_assoc]
  rw [hrev,
    dropWhile_append_stop _ m.reverse '/' d.reverse (ne_char_all '/' m hm) (by simp)]
  simp

theorem suffixOfChars_append (n e : List Char) (hn : n ≠ []) (he : e ≠ [])
    (hde : ('.' : Char) ∉ e) :
    suffixOfChars (n ++ '.' :: e) = '.' :: e := by
  have hrev : (n ++ '.' :: e).reverse = e.reverse ++ '.' :: n.reverse := by
    simp [List.append_assoc]
  have ht : (n ++ '.' :: e).reverse.takeWhile (fun c => c != '.') = e.reverse := by
    rw [hrev]
    exact takeWhile_append_stop _ e.reverse '.' n.reverse (ne_char_all '.' e hde) (by simp)
  have hcond : 0 < e.reverse.length
      ∧ e.reverse.length + 1 < (n ++ '.' :: e).length := by
    have h1 : 0 < e.length := List.length_pos.2 he
    have h2 : 0 < n.length := List.length_pos.2 hn
    simp only [List.length_reverse, List.length_append, List.length_cons]
    omega
  simp only [suffixOfChars, ht]
  rw [if_pos hcond, List.reverse_reverse]

theorem stemOfChars_append (n e : List Char) (hn : n ≠ []) (he : e ≠ [])
    (hde : ('.' : Char) ∉ e) :
    stemOfChars (n ++ '.' :: e) = n := by
  unfold stemOfChars
  rw [suffixOfChars_append n e hn he hde]
  have hlen : (n ++ '.' :: e).length - ('.' :: e).length = n.length := by
    simp only [List.length_append, List.length_cons]
    omega
  rw [hlen]
  exact List.take_left n ('.' :: e)

theorem change_suffix_parts_path (parts : UrlParts) (s : String) (d n e : List Char)
    (hpath : parts.path = ⟨d ++ '/' :: (n ++ '.' :: e)⟩)
    (hn : n ≠ []) (he : e ≠ []) (hsn : ('/' : Char) ∉ n) (hse : ('/' : Char) ∉ e)
    (hde : ('.' : Char) ∉ e) :
    (change_suffix_parts parts s).path = ⟨d ++ '/' :: (n ++ s.data ++ '.' :: e)⟩ := by
  have hm : ('/' : Char) ∉ n ++ '.' :: e := by
    intro hmem
    rcases List.mem_append.1 hmem with h | h
    · exact hsn h
    · rcases List.mem_cons.1 h with h | h
      · exact absurd h (by decide)
      · exact hse h
  have hdata : parts.path.data = d ++ '/' :: (n ++ '.' :: e) := by rw [hpath]
  have hname : nameOfChars parts.path.data = n ++ '.' :: e := by
    rw [hdata]
    exact nameOfChars_append d _ hm
  have hdir : dirOfChars parts.path.data = d ++ ['/'] := by
    rw [hdata]
    exact dirOfChars_append d _ hm
  have hsuf : suffixOfChars (nameOfChars parts.path.data) = '.' :: e := by
    rw [hname]
    exact suffixOfChars_append n e hn he hde
  have hstem : stemOfChars (nameOfChars parts.path.data) = n := by
    rw [hname]
    exact stemOfChars_append n e hn he hde
  show with_suffix parts.path (s ++ path_suffix parts.path)
      = String.mk (d ++ '/' :: (n ++ s.data ++ '.' :: e))
  unfold with_suffix with_suffix_chars path_suffix
  apply congrArg String.mk
  rw [hdir, hstem, str_data_append]
  show (d ++ ['/']) ++ n ++ (s.data ++ suffixOfChars (nameOfChars parts.path.data))
      = d ++ '/' :: (n ++ s.data ++ '.' :: e)
  rw [hsuf]
  simp [List.append_assoc]

/-! ## Claims C6, C9, C10 -/

/-- Claim C6: suffix insertion puts the new suffix immediately before the URL
path's final extension and preserves every other component: the concrete
scenario holds, the component rewrite touches only the path (scheme, netloc,
query and fragment unchanged), and for any parsed URL whose path ends in
`name.ext` the rewritten path is `name<suffix>.ext`. -/
theorem C6_link_suffix :
    format_links "t" "https://hamster.is/i/abc.jpg" "xyz" = "https://hamster.is/i/abc.th.jpg"
    ∧ (∀ (parts : UrlParts) (s : String),
        (change_suffix_parts parts s).scheme = parts.scheme
        ∧ (change_suffix_parts parts s).netloc = parts.netloc
        ∧ (change_suffix_parts parts s).query = parts.query
        ∧ (change_suffix_parts parts s).fragment = parts.fragment)
    ∧ (∀ (parts : UrlParts) (s : String) (d n e : List Char),
        parts.path = ⟨d ++ '/' :: (n ++ '.' :: e)⟩ → n ≠ [] → e ≠ [] →
        ('/' : Char) ∉ n → ('/' : Char) ∉ e → ('.' : Char) ∉ e →
        (change_suffix_parts parts s).path = ⟨d ++ '/' :: (n ++ s.data ++ '.' :: e)⟩) :=
  ⟨by decide, fun parts s => ⟨rfl, rfl, rfl, rfl⟩,
   fun parts s d n e h1 h2 h3 h4 h5 h6 =>
     change_suffix_parts_path parts s d n e h1 h2 h3 h4 h5 h6⟩

/-- Claim C6 witness: the path rewrite applied to the parsed upload URL. -/
theorem C6_witness :
    (change_suffix_parts (urlparse "https://hamster.is/i/x.png") ".md").path
      = ⟨"/i".data ++ '/' :: (['x'] ++ ".md".data ++ '.' :: "png".data)⟩ :=
  C6_link_suffix.2.2 (urlparse "https://hamster.is/i/x.png") ".md" "/i".data ['x'] "png".data
    (by decide) (by decide) (by decide) (by decide) (by decide) (by decide)

/-- Claim C9, amended: the extension filter is case-insensitive only for files
discovered by directory traversal (`find_images` lowercases the suffix before
comparing); a file or URL source named directly on the command line is kept
only when its extension is already an exact (lowercase) member of
`EXTENSIONS` — `organize_pics` compares without lowercasing. -/
theorem C9_extension_match :
    (∀ f : String, EXTENSIONS.contains (py_lower (path_suffix f)) = true →
        f ∈ find_images [f])
    ∧ (∀ (dirWalk : String → List String) (a : String),
        EXTENSIONS.contains (splitext_ext a) = false →
        organize_pics (fun _ => false) dirWalk [a] = []) := by
  constructor
  · intro f hf
    have hf2 : py_lower (path_suffix f) ∈ EXTENSIONS := by simpa using hf
    simp [find_images, List.filter, hf2]
  · intro dirWalk a ha
    have ha2 : ¬ splitext_ext a ∈ EXTENSIONS := by simpa using ha
    simp [organize_pics, ha2]

/-- Claim C9 witness. -/
theorem C9_witness :
    "x.PNG" ∈ find_images ["x.PNG"]
    ∧ organize_pics (fun _ => false) (fun _ => []) ["note.txt"] = [] :=
  ⟨C9_extension_match.1 "x.PNG" (by decide),
   C9_extension_match.2 (fun _ => []) "note.txt" (by decide)⟩

/-- Claim C9 counterexample: `photo.JPG` named directly on the command line is
dropped by `organize_pics` even though its lowercased extension is accepted —
and the directory walker would have accepted the very same name — so the
claimed case-insensitive matching for directly named sources is false. -/
theorem C9_counterexample :
    organize_pics (fun _ => false) (fun _ => []) ["photo.JPG"] = []
    ∧ EXTENSIONS.contains (py_lower (splitext_ext "photo.JPG")) = true
    ∧ find_images ["photo.JPG"] = ["photo.JPG"] := by decide

/-- Claim C10, amended: links are emitted in the batch processing order, which
is the sorted order of the collected items (`organize_pics` sorts them, in
Python's lexicographic string order), not the order in which the sources were
given; within the batch loop the emitted links do follow the processing order
of the items exactly. -/
theorem C10_emission_order :
    (∀ (isDir : String → Bool) (dirWalk : String → List String) (filenames : List String),
        List.Sorted py_le (organize_pics isDir dirWalk filenames))
    ∧ (∀ (process : String → Except PyError String) (pics out : List String),
        main_loop process pics = some out →
          out = pics.filterMap (fun p => (process p).toOption)) := by
  constructor
  · intro isDir dirWalk filenames
    exact List.sorted_insertionSort py_le _
  · intro process pics
    induction pics with
    | nil =>
        intro out h
        simp only [main_loop, Option.some.injEq] at h
        simp [h.symm]
    | cons p rest ih =>
        intro out h
        cases hp : process p with
        | ok link =>
            simp only [main_loop, hp] at h
            rcases Option.map_eq_some'.1 h with ⟨ls, hls, hout⟩
            rw [List.filterMap_cons]
            simp [hp, Except.toOption, hout.symm, ih ls hls]
        | error e =>
            simp only [main_loop, hp] at h
            by_cases hc : main_loop_catches e = true
            · rw [if_pos hc] at h
              rw [List.filterMap_cons]
              simp [hp, Except.toOption, ih out h]
            · rw [if_neg hc] at h
              exact absurd h (by simp)

/-- Claim C10 witness. -/
theorem C10_witness :
    ["ok1", "ok2"] = (["ok1", "ok2"].filterMap
      (fun p => ((fun q => (Except.ok q : Except PyError String)) p).toOption)) :=
  C10_emission_order.2 (fun q => (Except.ok q : Except PyError String)) ["ok1", "ok2"]
    ["ok1", "ok2"] (by decide)

/-- Claim C10 counterexample: sources given as `b.jpg, a.jpg` are re-ordered
by the sort in `organize_pics`, so the links are emitted for `a.jpg` first —
the emission order is not the order in which the inputs were given. -/
theorem C10_counterexample :
    organize_pics (fun _ => false) (fun _ => []) ["b.jpg", "a.jpg"] = ["a.jpg", "b.jpg"]
    ∧ main_loop (fun q => (Except.ok q : Except PyError String))
        (organize_pics (fun _ => false) (fun _ => []) ["b.jpg", "a.jpg"])
      = some ["a.jpg", "b.jpg"]
    ∧ (["a.jpg", "b.jpg"] : List String) ≠ ["b.jpg", "a.jpg"] := by decide

end Hammy
